import Mathlib

/-!
Verification of the schema-evolution engine of this repository.

The development shallowly embeds the diff engine of `yelp/show_diff.py`,
the batch comparator of `yelp/batch_schema_diff.py`, and the mutation
operators and operator catalog of `json_schema_evobench/make_ds_v6.py`.
Numeric similarity scores are embedded as exact rationals; Python dicts
become association lists that keep insertion order; the ambient
randomness of the mutation operators becomes explicit choice parameters.
-/

namespace ShowDiff

/- Schema tree node for the MongoDB `$jsonSchema` dialect used by
`show_diff.py`: a node is a JSON object that may carry `bsonType`,
`minimum`, `maximum`, `enum`, `pattern`, `properties`, `required` and
`items` keys. -/
mutual
/-- Schema tree node: a JSON object that may carry `bsonType`, `minimum`,
`maximum`, `enum`, `pattern`, `properties`, `required` and `items` keys.
An absent `enum` and an empty `enum` are both `[]` (every read in the
source goes through `or []` / truthiness).  `bsonType` is modelled as an
optional string; the `norm_type` list case does not arise for the
schemas in scope. -/
inductive SNode where
  | mk (bsonType : Option String) (minimum : Option Int) (maximum : Option Int)
       (enumVals : List String) (pat : Option String)
       (props : PList) (required : List String) (items : ONode) : SNode

/-- Ordered association list of `properties` (Python dict keeps insertion order). -/
inductive PList where
  | nil : PList
  | cons (key : String) (val : SNode) (tail : PList) : PList

/-- Optional `items` sub-node (present iff the `items` key holds a dict). -/
inductive ONode where
  | none : ONode
  | some (n : SNode) : ONode
end

def SNode.bsonType : SNode → Option String
  | .mk bt _ _ _ _ _ _ _ => bt

def SNode.minimum : SNode → Option Int
  | .mk _ mn _ _ _ _ _ _ => mn

def SNode.maximum : SNode → Option Int
  | .mk _ _ mx _ _ _ _ _ => mx

def SNode.enumVals : SNode → List String
  | .mk _ _ _ en _ _ _ _ => en

def SNode.pat : SNode → Option String
  | .mk _ _ _ _ p _ _ _ => p

def SNode.props : SNode → PList
  | .mk _ _ _ _ _ pr _ _ => pr

def SNode.required : SNode → List String
  | .mk _ _ _ _ _ _ rq _ => rq

def SNode.items : SNode → ONode
  | .mk _ _ _ _ _ _ _ it => it

def ONode.isSome : ONode → Bool
  | .none => false
  | .some _ => true

def PList.keys : PList → List String
  | .nil => []
  | .cons k _ tl => k :: PList.keys tl

def PList.lookup : PList → String → Option SNode
  | .nil, _ => Option.none
  | .cons k v tl, k' => if k = k' then Option.some v else PList.lookup tl k'

/-- An empty node, used as the (never reached) default of total lookups. -/
def defNode : SNode := .mk Option.none Option.none Option.none [] Option.none .nil [] .none

/-- `norm_type` of `show_diff.py`: sorts a list-valued `bsonType` and passes
scalars through.  List-valued types do not occur in the modelled dialect,
so on `Option String` it is the identity. -/
def norm_type (t : Option String) : Option String := t

/-- Similarity signature produced by `node_signature`.  A field of the
Python dict that is only conditionally present is modelled as an
`Option`; `itemsType` is doubly optional because the key may be absent
or may be present and hold `None`. -/
structure Sig where
  bsonType : Option String
  minimum : Option Int
  maximum : Option Int
  enum_sz : Nat
  has_items : Bool
  itemsType : Option (Option String)
  child_keys : Option (List String)
  required_set : Option (List String)
deriving DecidableEq

/-- `sig.get("itemsType")`: an absent key and a present key holding `None`
both read back as `None`. -/
def Sig.itemsTypeGet (s : Sig) : Option String :=
  match s.itemsType with
  | Option.none => Option.none
  | Option.some t => t

/-- `node_signature` of `show_diff.py`. -/
def node_signature (n : SNode) : Sig :=
  { bsonType := norm_type n.bsonType
    minimum := n.minimum
    maximum := n.maximum
    enum_sz := n.enumVals.length
    has_items := n.items.isSome
    itemsType :=
      match n.items with
      | .none => Option.none
      | .some it => Option.some it.bsonType
    child_keys :=
      if n.bsonType = some "object"
      then some ((n.props.keys).insertionSort (· ≤ ·))
      else Option.none
    required_set :=
      if n.bsonType = some "object"
      then some ((n.required).insertionSort (· ≤ ·))
      else Option.none }

/-- `jaccard` of `show_diff.py`: set Jaccard similarity, `1.0` when both
sides are empty. -/
def jaccard (a b : List String) : ℚ :=
  let A := a.toFinset
  let B := b.toFinset
  if A = ∅ ∧ B = ∅ then 1
  else ((A ∩ B).card : ℚ) / ((max 1 (A ∪ B).card : ℕ) : ℚ)

/-- `sim` of `show_diff.py`: heuristic similarity of two signatures. -/
def sim (s1 s2 : Sig) : ℚ :=
  (if s1.bsonType = s2.bsonType then 2/5 else 0)
  + (match s1.child_keys, s2.child_keys with
     | Option.some a, Option.some b => 3/10 * jaccard a b
     | _, _ => 0)
  + (if s1.enum_sz = s2.enum_sz then 1/10 else 0)
  + (if s1.has_items = s2.has_items then 1/10 else 0)
  + (if s1.itemsTypeGet = s2.itemsTypeGet then 1/10 else 0)

/- `walk` of `show_diff.py`. -/
mutual
/-- `walk` of `show_diff.py`: flatten a schema tree into a path-indexed
association list.  Object children live under `pre.key`, array items
under `pre[]`. -/
def walkNode : String → SNode → List (String × SNode)
  | pre, .mk bt mn mx en pa props rq items =>
    (pre, .mk bt mn mx en pa props rq items) ::
      (if bt = some "object" then walkProps pre props
       else if bt = some "array" then walkItems pre items
       else [])

def walkProps : String → PList → List (String × SNode)
  | _, .nil => []
  | pre, .cons k v tl => walkNode (pre ++ "." ++ k) v ++ walkProps pre tl

def walkItems : String → ONode → List (String × SNode)
  | _, .none => []
  | pre, .some it => walkNode (pre ++ "[]") it
end

/-- Operation vocabulary of the diff engines (spec §3).  `ModifyEnum`
carries the two sizes (as in `show_diff.py`); `ModifyEnumVals` carries
the two full value lists (as in `batch_schema_diff.py`).  The pattern
operations belong to the published vocabulary but, as proved below, are
never produced. -/
inductive Operation where
  | AddField (path : String) (dtype : Option String)
  | DropField (path : String)
  | RenameField (src dst : String)
  | MoveField (src dst : String)
  | ChangeType (path : String) (srcT dstT : Option String)
  | ToArray (path : String)
  | ToScalar (path : String)
  | AddRequired (path : String)
  | DropRequired (path : String)
  | AddRange (path : String) (minB maxB : Option Int)
  | ModifyRange (path : String) (oldMin oldMax newMin newMax : Option Int)
  | DropRange (path : String)
  | AddEnum (path : String) (values : List String)
  | ModifyEnum (path : String) (fromSz toSz : Nat)
  | ModifyEnumVals (path : String) (oldVals newVals : List String)
  | DropEnum (path : String)
  | AddPattern (path : String) (pat : String)
  | ModifyPattern (path : String) (oldPat newPat : String)
deriving DecidableEq

/-- `True` exactly for the pattern operations of the vocabulary. -/
def Operation.isPatternOp : Operation → Bool
  | .AddPattern _ _ => true
  | .ModifyPattern _ _ _ => true
  | _ => false

/-- `compute_required_ops` of `show_diff.py`: one `AddRequired` per sorted
member of `new − old`, then one `DropRequired` per sorted member of
`old − new` (set semantics: duplicates collapse).  The `if not (old_node
and new_node)` guard never fires in the modelled call sites, where both
nodes are non-empty dicts. -/
def compute_required_ops (a b : SNode) (path : String) : List Operation :=
  let addReq := ((b.required.filter (fun r => !(a.required.contains r))).dedup).insertionSort (· ≤ ·)
  let dropReq := ((a.required.filter (fun r => !(b.required.contains r))).dedup).insertionSort (· ≤ ·)
  (addReq.map (fun r => Operation.AddRequired (path ++ "." ++ r)))
  ++ (dropReq.map (fun r => Operation.DropRequired (path ++ "." ++ r)))

/-- The scalar kinds named in `type_change_op`'s array-transition tests. -/
def scalarKinds : List (Option String) :=
  [some "string", some "object", some "double", some "int", some "long"]

/-- `type_change_op` of `show_diff.py`. -/
def type_change_op (a b : SNode) (path : String) : Option Operation :=
  let ot := norm_type a.bsonType
  let nt := norm_type b.bsonType
  if ot ≠ nt then
    if ot = some "array" ∧ nt ∈ scalarKinds then some (Operation.ToScalar path)
    else if nt = some "array" ∧ ot ∈ scalarKinds then some (Operation.ToArray path)
    else some (Operation.ChangeType path ot nt)
  else none

/-- `constraint_ops` of `show_diff.py`: range changes then enum changes.
Note that when any old bound exists the `else` branch can only produce
`ModifyRange` — there is no `DropRange` case in this source. -/
def constraint_ops (a b : SNode) (path : String) : List Operation :=
  let rangeOps :=
    if a.minimum = Option.none ∧ a.maximum = Option.none then
      if b.minimum ≠ Option.none ∨ b.maximum ≠ Option.none then
        [Operation.AddRange path b.minimum b.maximum]
      else []
    else
      if b.minimum ≠ a.minimum ∨ b.maximum ≠ a.maximum then
        [Operation.ModifyRange path a.minimum a.maximum b.minimum b.maximum]
      else []
  let oenum := a.enumVals
  let nenum := b.enumVals
  let enumOps :=
    if oenum ≠ [] ∧ nenum = [] then [Operation.DropEnum path]
    else if oenum = [] ∧ nenum ≠ [] then [Operation.AddEnum path nenum]
    else if oenum ≠ [] ∧ nenum ≠ [] ∧ oenum ≠ nenum then
      [Operation.ModifyEnum path oenum.length nenum.length]
    else []
  rangeOps ++ enumOps

/-- `".".join(p.split(".")[:-1])` — the parent path of `p`. -/
def parentOf (p : String) : String :=
  String.intercalate "." ((p.splitOn ".").dropLast)

/-- `p.split(".")[-1]` — the leaf name of `p`. -/
def leafOf (p : String) : String :=
  (p.splitOn ".").getLastD ""

/-- The similarity score `sim(sig_old[po], sig_new[pn])` read through the
two flat indices. -/
def simAt (oldIdx newIdx : List (String × SNode)) (po pn : String) : ℚ :=
  sim (node_signature ((oldIdx.lookup po).getD defNode))
      (node_signature ((newIdx.lookup pn).getD defNode))

/-- The inner `for pn in added` loop of the pair collection: all retained
pairs for one removed path `po`. -/
def candRow (added : List String) (oldIdx newIdx : List (String × SNode)) (po : String) :
    List (String × String × ℚ) :=
  added.filterMap (fun pn =>
    let s := simAt oldIdx newIdx po pn
    if 3/5 ≤ s then some (po, pn, s) else none)

/-- The `pairs` list of `detect_moves_and_renames`: every `(po, pn, s)`
with `po` removed, `pn` added and `s = sim(...) ≥ 0.6`, in
removed-major/added-minor order. -/
def candidatePairs (removed added : List String) (oldIdx newIdx : List (String × SNode)) :
    List (String × String × ℚ) :=
  removed.flatMap (candRow added oldIdx newIdx)

/-- The comparison used by `pairs.sort(key=lambda x: x[2], reverse=True)`:
`x` may precede `y` when `y`'s score is at most `x`'s. -/
def scoreGe (x y : String × String × ℚ) : Prop := y.2.2 ≤ x.2.2

instance : DecidableRel scoreGe :=
  fun x y => inferInstanceAs (Decidable (y.2.2 ≤ x.2.2))

/-- Python's `list.sort` is stable; a stable sort's output is unique, so
it is modelled by (stable) insertion sort on the score comparison. -/
def sortPairs (l : List (String × String × ℚ)) : List (String × String × ℚ) :=
  l.insertionSort scoreGe

/-- Result quadruple of `detect_moves_and_renames`.  The Python `used_old`
and `used_new` sets are kept as insertion-ordered lists; only membership
is ever consumed. -/
structure DetectResult where
  renames : List (String × String)
  moves : List (String × String)
  used_old : List String
  used_new : List String
deriving DecidableEq

/-- The greedy matching loop of `detect_moves_and_renames`. -/
def detectLoop : List (String × String × ℚ) → DetectResult → DetectResult
  | [], st => st
  | (po, pn, _) :: tl, st =>
    if po ∈ st.used_old ∨ pn ∈ st.used_new then detectLoop tl st
    else
      let old_parent := parentOf po
      let new_parent := parentOf pn
      let old_name := leafOf po
      let new_name := leafOf pn
      let st1 :=
        if old_parent = new_parent ∧ old_name ≠ new_name then
          { st with renames := st.renames ++ [(po, pn)] }
        else if old_parent ≠ new_parent ∧ old_name = new_name then
          { st with moves := st.moves ++ [(po, pn)] }
        else
          { st with renames := st.renames ++ [(po, pn)], moves := st.moves ++ [(po, pn)] }
      detectLoop tl { st1 with used_old := st1.used_old ++ [po], used_new := st1.used_new ++ [pn] }

/-- `detect_moves_and_renames` of `show_diff.py`. -/
def detect_moves_and_renames (removed added : List String)
    (oldIdx newIdx : List (String × SNode)) : DetectResult :=
  detectLoop (sortPairs (candidatePairs removed added oldIdx newIdx)) ⟨[], [], [], []⟩

/-- The accepted pairs of the greedy loop, in processing order (the loop
above additionally classifies them; this companion recursion carries the
same acceptance test). -/
def greedy : List (String × String × ℚ) → List String → List String → List (String × String)
  | [], _, _ => []
  | (po, pn, _) :: tl, uo, un =>
    if po ∈ uo ∨ pn ∈ un then greedy tl uo un
    else (po, pn) :: greedy tl (uo ++ [po]) (un ++ [pn])

/-- The Rename/Move emission loops of `diff`: one `RenameField` per
rename pair, then one `MoveField` per move pair with distinct paths. -/
def renameMoveOps (renames moves : List (String × String)) : List Operation :=
  (renames.map fun pr => Operation.RenameField pr.1 pr.2)
  ++ ((moves.filter fun pr => pr.1 != pr.2).map fun pr => Operation.MoveField pr.1 pr.2)

/-- The per-common-path body of `diff`'s final loop: type change (when
both sides declare a type), then constraint changes, then the required
diff for object/object pairs. -/
def commonPathOps (idxA idxB : List (String × SNode)) (p : String) : List Operation :=
  let a := (idxA.lookup p).getD defNode
  let b := (idxB.lookup p).getD defNode
  (match a.bsonType, b.bsonType with
   | Option.some _, Option.some _ => (type_change_op a b p).toList
   | _, _ => [])
  ++ constraint_ops a b p
  ++ (if a.bsonType = some "object" ∧ b.bsonType = some "object"
      then compute_required_ops a b p else [])

/-- `sorted(p for p in (pathsA - pathsB) if not p.endswith("[]"))`. -/
def removedPaths (keysA keysB : List String) : List String :=
  (keysA.filter (fun p => !(keysB.contains p) && !(p.endsWith "[]"))).insertionSort (· ≤ ·)

/-- `sorted(pathsA & pathsB)` (array-item paths are not excluded here). -/
def commonPaths (keysA keysB : List String) : List String :=
  (keysA.filter (fun p => keysB.contains p)).insertionSort (· ≤ ·)

/-- `diff` of `show_diff.py`, from the two parsed schemas onward (file
loading and the basename-derived root labels become the `rootA`/`rootB`
parameters of `walk`). -/
def diff (A B : SNode) (rootA rootB : String) : List Operation :=
  let idxA := walkNode rootA A
  let idxB := walkNode rootB B
  let keysA := idxA.map Prod.fst
  let keysB := idxB.map Prod.fst
  let removed := removedPaths keysA keysB
  let added := removedPaths keysB keysA
  let common := commonPaths keysA keysB
  let res := detect_moves_and_renames removed added idxA idxB
  let removed_eff := removed.filter (fun p => !(res.used_old.contains p))
  let added_eff := added.filter (fun p => !(res.used_new.contains p))
  (removed_eff.map Operation.DropField)
  ++ (added_eff.map (fun p => Operation.AddField p ((idxB.lookup p).getD defNode).bsonType))
  ++ renameMoveOps res.renames res.moves
  ++ (common.flatMap (commonPathOps idxA idxB))

end ShowDiff

namespace BatchDiff

open ShowDiff

/-- `range_enum_ops` of `batch_schema_diff.py`.  The outer range guard is
the source's literal `(amin, bmax) != (bmin, bmax)` comparison (note the
first component pairs the old minimum with the NEW maximum), and the
`DropRange` branch fires as soon as at least one old bound existed and
no new bound remains. -/
def range_enum_ops (a b : SNode) (p : String) : List Operation :=
  let amin := a.minimum
  let amax := a.maximum
  let bmin := b.minimum
  let bmax := b.maximum
  let rangeOps :=
    if (amin, bmax) ≠ (bmin, bmax) then
      if (amin = Option.none ∧ amax = Option.none) ∧ (bmin ≠ Option.none ∨ bmax ≠ Option.none) then
        [Operation.AddRange p bmin bmax]
      else if (bmin = Option.none ∧ bmax = Option.none) ∧ (amin ≠ Option.none ∨ amax ≠ Option.none) then
        [Operation.DropRange p]
      else if amin ≠ bmin ∨ amax ≠ bmax then
        [Operation.ModifyRange p amin amax bmin bmax]
      else []
    else []
  let e1 := a.enumVals
  let e2 := b.enumVals
  let enumOps :=
    if e1 ≠ e2 then
      if e1 = [] ∧ e2 ≠ [] then [Operation.AddEnum p e2]
      else if e1 ≠ [] ∧ e2 = [] then [Operation.DropEnum p]
      else [Operation.ModifyEnumVals p e1 e2]
    else []
  rangeOps ++ enumOps

end BatchDiff

namespace MakeDS

/- Schema tree node for the JSON-Schema dialect of
`json_schema_evobench/make_ds_v6.py` (key `type` rather than
`bsonType`). -/
mutual
/-- Schema node of `make_ds_v6.py`.  `properties` is an insertion-ordered
association list whose empty value also stands for an absent key (every
read is truthiness-guarded or defaulted); `enum` keeps an explicit
present/absent distinction because `_is_operation_viable` tests key
presence with `"enum" in field_def`. -/
inductive JNode where
  | mk (typ : Option String) (props : JPList) (required : List String)
       (enumVals : Option (List String)) (minimum : Option Int) (maximum : Option Int)
       (pat : Option String) (items : JItems) : JNode

/-- Ordered association list of `properties`. -/
inductive JPList where
  | nil : JPList
  | cons (key : String) (val : JNode) (tail : JPList) : JPList

/-- Optional `items` sub-node. -/
inductive JItems where
  | none : JItems
  | some (n : JNode) : JItems
end

def JNode.typ : JNode → Option String
  | .mk t _ _ _ _ _ _ _ => t

def JNode.props : JNode → JPList
  | .mk _ pr _ _ _ _ _ _ => pr

def JNode.required : JNode → List String
  | .mk _ _ rq _ _ _ _ _ => rq

def JNode.enumVals : JNode → Option (List String)
  | .mk _ _ _ en _ _ _ _ => en

/-- Replace the `properties` of a node (a Python in-place dict update). -/
def JNode.withProps : JNode → JPList → JNode
  | .mk t _ rq en mn mx pa it, pr => .mk t pr rq en mn mx pa it

/-- Replace `properties` and `required` together. -/
def JNode.withPropsRequired : JNode → JPList → List String → JNode
  | .mk t _ _ en mn mx pa it, pr, rq => .mk t pr rq en mn mx pa it

def JPList.keys : JPList → List String
  | .nil => []
  | .cons k _ tl => k :: JPList.keys tl

def JPList.toList : JPList → List (String × JNode)
  | .nil => []
  | .cons k v tl => (k, v) :: JPList.toList tl

def JPList.lookup : JPList → String → Option JNode
  | .nil, _ => Option.none
  | .cons k v tl, k' => if k = k' then Option.some v else JPList.lookup tl k'

def JPList.isNil : JPList → Bool
  | .nil => true
  | .cons _ _ _ => false

/-- `dict.pop(k)`: remove the binding of `k` (dict keys are unique, so
removing the first binding is removal of the binding). -/
def JPList.erase : JPList → String → JPList
  | .nil, _ => .nil
  | .cons k v tl, k' => if k = k' then tl else .cons k v (JPList.erase tl k')

/-- `d[k] = v`: overwrite in place when `k` is present, append otherwise
(Python dicts keep the original position of an updated key). -/
def JPList.insertOrAssign : JPList → String → JNode → JPList
  | .nil, k, v => .cons k v .nil
  | .cons k0 v0 tl, k, v =>
    if k0 = k then .cons k0 v tl else .cons k0 v0 (JPList.insertOrAssign tl k v)

/-- Apply `f` to the value bound to `k`, in place (models mutating a dict
value that is aliased from its parent dict). -/
def JPList.updateAt : JPList → String → (JNode → JNode) → JPList
  | .nil, _, _ => .nil
  | .cons k0 v0 tl, k, f =>
    if k0 = k then .cons k0 (f v0) tl else .cons k0 v0 (JPList.updateAt tl k f)

/-- An empty node, the (never reached) default of total lookups. -/
def defJNode : JNode :=
  .mk Option.none .nil [] Option.none Option.none Option.none Option.none .none

/-- `field_def.get("type") in [...]`: `None` is never in the list. -/
def typIn (v : JNode) (ts : List String) : Bool :=
  match v.typ with
  | Option.some t => ts.contains t
  | Option.none => false

/-- `_is_operation_viable` of `make_ds_v6.py`. -/
def is_operation_viable (operation : String) (schema : JNode) : Bool :=
  let props := schema.props.toList
  if operation = "add_field" then props.length < 20
  else if operation = "remove_field" then props.length > 3
  else if operation = "rename_field" then props.length > 0
  else if operation = "change_field_type" then
    props.any (fun kv => typIn kv.2 ["string", "number", "integer", "boolean"])
  else if operation = "nest_fields" then props.length ≥ 2
  else if operation = "unnest_field" then
    props.any (fun kv => decide (kv.2.typ = some "object") && !(kv.2.props.isNil))
  else if operation = "promote_field" then
    props.any (fun kv => decide (kv.2.typ = some "object") && !(kv.2.props.isNil))
  else if operation = "demote_field" then
    (props.filter (fun kv => typIn kv.2 ["string", "number", "integer", "boolean"])).length ≥ 2
  else if operation = "change_required_constraint" then !(schema.required.isEmpty)
  else if operation = "change_enum_options" then props.any (fun kv => kv.2.enumVals.isSome)
  else if operation = "change_min_max_constraint" then
    props.any (fun kv => typIn kv.2 ["integer", "number"])
  else if operation = "change_pattern_constraint" then
    props.any (fun kv => decide (kv.2.typ = some "string"))
  else if operation = "split_field" then
    props.any (fun kv => decide (kv.2.typ = some "string"))
  else if operation = "merge_fields" then props.length ≥ 2
  else if operation = "add_conditional_validation" then props.length ≥ 2
  else if operation = "change_array_structure" then
    props.any (fun kv => decide (kv.2.typ = some "array"))
  else true

/-- One entry of the operator catalog. -/
structure OpEntry where
  func : String
  weight : Nat
  category : String
deriving DecidableEq

/-- `EVOLUTION_OPERATIONS` of `make_ds_v6.py`. -/
def EVOLUTION_OPERATIONS : List OpEntry :=
  [⟨"add_field", 15, "structural"⟩,
   ⟨"remove_field", 10, "structural"⟩,
   ⟨"rename_field", 8, "structural"⟩,
   ⟨"change_field_type", 5, "structural"⟩,
   ⟨"nest_fields", 5, "structural"⟩,
   ⟨"unnest_field", 5, "structural"⟩,
   ⟨"promote_field", 4, "structural"⟩,
   ⟨"demote_field", 4, "structural"⟩,
   ⟨"change_array_structure", 4, "structural"⟩,
   ⟨"change_required_constraint", 8, "constraint"⟩,
   ⟨"change_enum_options", 6, "constraint"⟩,
   ⟨"change_min_max_constraint", 7, "constraint"⟩,
   ⟨"change_pattern_constraint", 4, "constraint"⟩,
   ⟨"split_field", 3, "semantic"⟩,
   ⟨"merge_fields", 3, "semantic"⟩,
   ⟨"add_conditional_validation", 4, "semantic"⟩]

/-- `get_available_operations` of `make_ds_v6.py`.  The Python body
iterates over `available_ops`, whose elements alias the catalog's own
dicts, and runs `op["weight"] *= 2` on every viable operator that is not
in `executed`; the function therefore both returns the (doubled)
available entries and leaves the catalog itself updated.  The model
returns the pair (available list, catalog after the call). -/
def get_available_operations (catalog : List OpEntry) (executed : List String)
    (schema : JNode) : List OpEntry × List OpEntry :=
  let catalog' := catalog.map (fun op =>
    if is_operation_viable op.func schema && !(executed.contains op.func) then
      { op with weight := op.weight * 2 }
    else op)
  (catalog'.filter (fun op => is_operation_viable op.func schema), catalog')

/-- The `nested_objects` list computed by `unnest_field` and
`promote_field`: top-level fields of object type with non-empty
properties. -/
def nested_objects (props : JPList) : List String :=
  (props.toList.filter
    (fun kv => decide (kv.2.typ = some "object") && !(kv.2.props.isNil))).map Prod.fst

/-- The promotion loop of `unnest_field`: for each chosen field, pop it
from the nested properties, assign it at top level, and (when the
un-nested object is required and the coin flip succeeds) append it to
the top-level required list.  `coin f` is the explicit
`random.random() > 0.5` draw of the iteration handling `f`. -/
def promoteFold (objChoice : String) (coin : String → Bool) :
    List String → JPList × JPList × List String → JPList × JPList × List String
  | [], st => st
  | f :: tl, (top, nested, req) =>
    let v := (nested.lookup f).getD defJNode
    let nested' := nested.erase f
    let top' := top.insertOrAssign f v
    let req' := if objChoice ∈ req ∧ coin f then req ++ [f] else req
    promoteFold objChoice coin tl (top', nested', req')

/-- `unnest_field` of `make_ds_v6.py` with the randomness made explicit:
`objChoice` is the `random.choice(nested_objects)` draw, `fieldsChoice`
the `random.sample` of nested keys, `coin` the per-field
`random.random() > 0.5` draws.  When no nested object exists (so
`objChoice` cannot be a valid draw) the schema is returned unchanged,
as in the source's early return.  Aliasing: the nested dict is mutated
through the object's entry, so after the loop a non-empty remainder is
visible there — unless some promoted field was named like the object
itself, in which case `props[field] = ...` already overwrote that entry
(severing the alias) and the remainder is simply dropped; the final
cleanup, when the remainder is empty, pops whatever the key holds by
then (possibly the promoted field). -/
def unnest_field (schema : JNode) (objChoice : String) (fieldsChoice : List String)
    (coin : String → Bool) : JNode :=
  if objChoice ∈ nested_objects schema.props then
    let objNode := (schema.props.lookup objChoice).getD defJNode
    let st := promoteFold objChoice coin fieldsChoice (schema.props, objNode.props, schema.required)
    let top := st.1
    let nested := st.2.1
    let req := st.2.2
    if nested.isNil then
      schema.withPropsRequired (top.erase objChoice)
        (if objChoice ∈ req then req.erase objChoice else req)
    else
      if objChoice ∈ fieldsChoice then
        schema.withPropsRequired top req
      else
        schema.withPropsRequired (top.updateAt objChoice (fun n => n.withProps nested)) req
  else schema

/-- `promote_field` of `make_ds_v6.py` with the randomness made explicit:
`objChoice` is the chosen nested object, `fieldChoice` the chosen nested
field, `coin` the `random.random() > 0.5` draw guarding the required
append.  The promoted field is renamed `objChoice_fieldChoice`. -/
def promote_field (schema : JNode) (objChoice : String) (fieldChoice : String)
    (coin : Bool) : JNode :=
  if objChoice ∈ nested_objects schema.props then
    let objNode := (schema.props.lookup objChoice).getD defJNode
    let nested := objNode.props
    let v := (nested.lookup fieldChoice).getD defJNode
    let nested' := nested.erase fieldChoice
    let new_field_name := objChoice ++ "_" ++ fieldChoice
    let top' := schema.props.insertOrAssign new_field_name v
    let req' :=
      if objChoice ∈ schema.required ∧ coin then schema.required ++ [new_field_name]
      else schema.required
    if nested'.isNil then
      schema.withPropsRequired (top'.erase objChoice)
        (if objChoice ∈ req' then req'.erase objChoice else req')
    else
      schema.withPropsRequired (top'.updateAt objChoice (fun n => n.withProps nested')) req'
  else schema

/- The required/properties consistency invariant (spec §8). -/
mutual
/-- Every `required` name of every Object node, at every depth, is a key
of that node's own `properties`. -/
def reqOK : JNode → Bool
  | .mk t props req _ _ _ _ it =>
    (if t = some "object" then req.all (fun r => (props.lookup r).isSome) else true)
    && reqOKProps props && reqOKItems it

/-- `reqOK` over all property children. -/
def reqOKProps : JPList → Bool
  | .nil => true
  | .cons _ v tl => reqOK v && reqOKProps tl

/-- `reqOK` under `items`. -/
def reqOKItems : JItems → Bool
  | .none => true
  | .some n => reqOK n
end

/-- The invariant restricted to the top-level node: every top-level
required name is a top-level property key. -/
def rootReqOK (n : JNode) : Bool :=
  n.required.all (fun r => (n.props.lookup r).isSome)

end MakeDS

namespace ShowDiff

/-- The declared kind of a node's `items` dict (`None` when `items` is
absent or carries no `bsonType`). -/
def itemKind (n : SNode) : Option String :=
  match n.items with
  | .none => Option.none
  | .some it => it.bsonType

/-- Modelled from the spec's words for claim C3 (the stated similarity
formula): +0.4 on kind match; +0.3 × Jaccard of child-property-name sets
only when both nodes are objects; +0.1 when enum PRESENCE matches; +0.1
when items presence matches; +0.1 when the item kinds match, only when
the nodes are arrays.  To be compared against `sim ∘ node_signature`. -/
def simClaimSpecC3 (a b : SNode) : ℚ :=
  (if norm_type a.bsonType = norm_type b.bsonType then 2/5 else 0)
  + (if a.bsonType = some "object" ∧ b.bsonType = some "object"
     then 3/10 * jaccard a.props.keys b.props.keys else 0)
  + (if a.enumVals.isEmpty = b.enumVals.isEmpty then 1/10 else 0)
  + (if a.items.isSome = b.items.isSome then 1/10 else 0)
  + (if a.bsonType = some "array" ∧ b.bsonType = some "array" ∧ itemKind a = itemKind b
     then 1/10 else 0)

/-- The node-level similarity formula the source actually computes
(amended claim C3): +0.4 on kind match; +0.3 × Jaccard of child keys when
both nodes are objects; +0.1 when the enum SIZES are equal; +0.1 when
items presence matches; +0.1 when the item kinds agree, including
vacuously when neither side has one. -/
def simAmendedC3 (a b : SNode) : ℚ :=
  (if norm_type a.bsonType = norm_type b.bsonType then 2/5 else 0)
  + (if a.bsonType = some "object" ∧ b.bsonType = some "object"
     then 3/10 * jaccard a.props.keys b.props.keys else 0)
  + (if a.enumVals.length = b.enumVals.length then 1/10 else 0)
  + (if a.items.isSome = b.items.isSome then 1/10 else 0)
  + (if itemKind a = itemKind b then 1/10 else 0)

/-- Strict lexicographic order on `(removed path, added path)` pairs. -/
def pairLexLt (a b : String × String) : Prop :=
  a.1 < b.1 ∨ (a.1 = b.1 ∧ a.2 < b.2)

/-- Lexicographic order (with equality) on `(removed path, added path)`
pairs. -/
def pairLexLe (a b : String × String) : Prop :=
  a.1 < b.1 ∨ (a.1 = b.1 ∧ a.2 ≤ b.2)

/-- The processing order claimed for the aligner: strictly larger score
first, and on equal scores lexicographically smaller `(removed, added)`
pair first. -/
def pairOrder (x y : String × String × ℚ) : Prop :=
  y.2.2 < x.2.2 ∨ (x.2.2 = y.2.2 ∧ pairLexLe (x.1, x.2.1) (y.1, y.2.1))

instance : DecidableRel pairLexLt := fun a b =>
  inferInstanceAs (Decidable (a.1 < b.1 ∨ (a.1 = b.1 ∧ a.2 < b.2)))

instance : DecidableRel pairLexLe := fun a b =>
  inferInstanceAs (Decidable (a.1 < b.1 ∨ (a.1 = b.1 ∧ a.2 ≤ b.2)))

instance : DecidableRel pairOrder := fun x y =>
  inferInstanceAs (Decidable (y.2.2 < x.2.2 ∨ (x.2.2 = y.2.2 ∧ pairLexLe (x.1, x.2.1) (y.1, y.2.1))))

/-- A matched pair is recorded as a rename when it is NOT the
"different parent, same leaf" case (branches 1 and 3 of the loop). -/
def isRenamePair (pr : String × String) : Prop :=
  ¬(parentOf pr.1 ≠ parentOf pr.2 ∧ leafOf pr.1 = leafOf pr.2)

/-- A matched pair is recorded as a move when it is NOT the
"same parent, different leaf" case (branches 2 and 3 of the loop). -/
def isMovePair (pr : String × String) : Prop :=
  ¬(parentOf pr.1 = parentOf pr.2 ∧ leafOf pr.1 ≠ leafOf pr.2)

instance : DecidablePred isRenamePair := fun pr =>
  inferInstanceAs (Decidable (¬(parentOf pr.1 ≠ parentOf pr.2 ∧ leafOf pr.1 = leafOf pr.2)))

instance : DecidablePred isMovePair := fun pr =>
  inferInstanceAs (Decidable (¬(parentOf pr.1 = parentOf pr.2 ∧ leafOf pr.1 ≠ leafOf pr.2)))

/- Concrete schemas for the spec's Scenario A (claim C1). -/

/-- A scalar string node. -/
def strNode : SNode := .mk (some "string") Option.none Option.none [] Option.none .nil [] .none

/-- A scalar int node. -/
def intNode : SNode := .mk (some "int") Option.none Option.none [] Option.none .nil [] .none

/-- Scenario A, old schema: `{name: string, age: int}`, required `[name]`. -/
def scenA_old : SNode :=
  .mk (some "object") Option.none Option.none [] Option.none
    (.cons "name" strNode (.cons "age" intNode .nil)) ["name"] .none

/-- Scenario A, new schema: `{full_name: string, age: int}`, required
`[full_name]`. -/
def scenA_new : SNode :=
  .mk (some "object") Option.none Option.none [] Option.none
    (.cons "full_name" strNode (.cons "age" intNode .nil)) ["full_name"] .none

/- Concrete schemas for the spec's Scenario B (claim C8). -/

/-- An array-of-strings node. -/
def tagsArrNode : SNode :=
  .mk (some "array") Option.none Option.none [] Option.none .nil [] (.some strNode)

/-- Scenario B, old schema: `{tags: array of string}`. -/
def scenB_old : SNode :=
  .mk (some "object") Option.none Option.none [] Option.none
    (.cons "tags" tagsArrNode .nil) [] .none

/-- Scenario B, new schema: `{tags: string}`. -/
def scenB_new : SNode :=
  .mk (some "object") Option.none Option.none [] Option.none
    (.cons "tags" strNode .nil) [] .none

/- Concrete nodes for the constraint-comparator claims C5 and C6. -/

/-- An int node with bounds `[1, 2]`. -/
def boundedIntNode : SNode :=
  .mk (some "int") (Option.some 1) (Option.some 2) [] Option.none .nil [] .none

/-- An int node with bounds `[0, 10]`. -/
def intNode0to10 : SNode :=
  .mk (some "int") (Option.some 0) (Option.some 10) [] Option.none .nil [] .none

/-- An int node with bounds `[0, 20]`. -/
def intNode0to20 : SNode :=
  .mk (some "int") (Option.some 0) (Option.some 20) [] Option.none .nil [] .none

/-- A string node carrying a `pattern` constraint. -/
def patternedStrNode : SNode :=
  .mk (some "string") Option.none Option.none [] (Option.some "^[A-Za-z]+$") .nil [] .none

/-- An object node with no properties, no enum and no items (claim C10). -/
def emptyObjNode : SNode :=
  .mk (some "object") Option.none Option.none [] Option.none .nil [] .none

end ShowDiff

namespace MakeDS

/- Concrete schemas for the mutation-engine claims C2 and C9. -/

/-- A scalar string field of the `make_ds_v6.py` dialect. -/
def jStrNode : JNode :=
  .mk (Option.some "string") .nil [] Option.none Option.none Option.none Option.none .none

/-- A nested object `{a: string, b: string}` with required `[a]`. -/
def jNestedObj : JNode :=
  .mk (Option.some "object") (.cons "a" jStrNode (.cons "b" jStrNode .nil)) ["a"]
    Option.none Option.none Option.none Option.none .none

/-- Top-level schema `{obj: {a: string, b: string} required [a]}`. -/
def c2schema : JNode :=
  .mk (Option.some "object") (.cons "obj" jNestedObj .nil) []
    Option.none Option.none Option.none Option.none .none

/-- A schema with no properties at all (only `add_field` is viable). -/
def emptyObjSchema : JNode :=
  .mk (Option.some "object") .nil [] Option.none Option.none Option.none Option.none .none

/-- A nested object one of whose fields is named like the object itself:
`{x: string, b: string}`. -/
def jShadowObj : JNode :=
  .mk (Option.some "object") (.cons "x" jStrNode (.cons "b" jStrNode .nil)) []
    Option.none Option.none Option.none Option.none .none

/-- Top-level schema `{x: {x: string, b: string}}` with required `[x]`:
un-nesting all of `x`'s fields overwrites and then pops the promoted
field `x`, leaving the top-level required list naming a missing
property. -/
def c2shadow : JNode :=
  .mk (Option.some "object") (.cons "x" jShadowObj .nil) ["x"]
    Option.none Option.none Option.none Option.none .none

end MakeDS

open ShowDiff MakeDS

/-- C1 (counterexample): on Scenario A the diff output does contain
`AddRequired` and `DropRequired` operations — the required-set diff at
the common root is not suppressed for the renamed field, so the claimed
"zero AddRequired and zero DropRequired" is false. -/
theorem claim_C1_counterexample :
    Operation.AddRequired "root.full_name" ∈ ShowDiff.diff scenA_old scenA_new "root" "root"
    ∧ Operation.DropRequired "root.name" ∈ ShowDiff.diff scenA_old scenA_new "root" "root" := by
  with_unfolding_all decide

/-- C1 (amended): on Scenario A the Diff Engine emits exactly one
`RenameField` (name → full_name) together with exactly one
`AddRequired(full_name)` and one `DropRequired(name)` arising from the
root's required-set diff. -/
theorem claim_C1_theorem :
    ShowDiff.diff scenA_old scenA_new "root" "root" =
      [Operation.RenameField "root.name" "root.full_name",
       Operation.AddRequired "root.full_name",
       Operation.DropRequired "root.name"] := by
  with_unfolding_all decide

/-- C8: on Scenario B the Diff Engine emits exactly one `ToScalar` at the
`tags` path, with no `AddField`/`DropField`; the array-item placeholder
path `root.tags[]` is excluded from the removed-path set. -/
theorem claim_C8_theorem :
    ShowDiff.diff scenB_old scenB_new "root" "root" = [Operation.ToScalar "root.tags"]
    ∧ "root.tags[]" ∉
        removedPaths ((walkNode "root" scenB_old).map Prod.fst)
                     ((walkNode "root" scenB_new).map Prod.fst) := by
  with_unfolding_all decide

/-- C5 (counterexample): when both bounds existed before and neither
exists now, `constraint_ops` emits `ModifyRange` and no `DropRange`
(contradicting the claimed Drop case); and `range_enum_ops` emits
nothing at all when the minima agree but the maxima differ
(contradicting the claimed "Modify whenever the values differ"). -/
theorem claim_C5_counterexample :
    constraint_ops boundedIntNode intNode "p" =
      [Operation.ModifyRange "p" (Option.some 1) (Option.some 2) Option.none Option.none]
    ∧ Operation.DropRange "p" ∉ constraint_ops boundedIntNode intNode "p"
    ∧ BatchDiff.range_enum_ops intNode0to10 intNode0to20 "p" = [] := by
  with_unfolding_all decide

/-- C6 (counterexample): a node gaining a `pattern` constraint produces
no operation from either comparator — neither the claimed pattern Add
nor anything else. -/
theorem claim_C6_counterexample :
    constraint_ops strNode patternedStrNode "p" = []
    ∧ BatchDiff.range_enum_ops strNode patternedStrNode "p" = [] := by
  with_unfolding_all decide

/-- C9 (code bug): one call to `get_available_operations` on an
empty-properties schema (where only `add_field` is viable) doubles
`add_field`'s stored weight in the catalog itself (15 → 30), and a
second call doubles it again (→ 60): the doubling accumulates in the
shared catalog instead of biasing only one step's sampling. -/
theorem claim_C9_theorem :
    (get_available_operations EVOLUTION_OPERATIONS [] emptyObjSchema).2 ≠ EVOLUTION_OPERATIONS
    ∧ ((get_available_operations EVOLUTION_OPERATIONS [] emptyObjSchema).2.head?.map
        OpEntry.weight) = some 30
    ∧ ((get_available_operations
          (get_available_operations EVOLUTION_OPERATIONS [] emptyObjSchema).2
          [] emptyObjSchema).2.head?.map OpEntry.weight) = some 60
    ∧ ((get_available_operations EVOLUTION_OPERATIONS [] emptyObjSchema).1.map
        OpEntry.weight) = [30] := by
  with_unfolding_all decide

/-- C2 (counterexample): `unnest_field` is viable on `c2schema` and the
input satisfies the required invariant, yet after un-nesting field `a`
out of `obj` the nested object's `required` list still names `a`, which
is no longer among its properties — the invariant fails; `promote_field`
breaks it the same way.  Moreover, on `c2shadow` — where a nested field
is named like the un-nested object itself — promoting every nested field
with the coin landing on the shadowed name even breaks the TOP-LEVEL
invariant: the promoted field is overwritten and then popped by the
cleanup, leaving the top-level required list naming a missing
property. -/
theorem claim_C2_counterexample :
    is_operation_viable "unnest_field" c2schema = true
    ∧ reqOK c2schema = true
    ∧ reqOK (unnest_field c2schema "obj" ["a"] (fun _ => false)) = false
    ∧ reqOK (promote_field c2schema "obj" "a" false) = false
    ∧ is_operation_viable "unnest_field" c2shadow = true
    ∧ rootReqOK c2shadow = true
    ∧ reqOK c2shadow = true
    ∧ c2shadow.required.Nodup
    ∧ rootReqOK (unnest_field c2shadow "x" ["x", "b"] (fun f => f == "x")) = false := by
  with_unfolding_all decide

/-- The Jaccard similarity is nonnegative. -/
theorem jaccard_nonneg (a b : List String) : 0 ≤ jaccard a b := by
  by_cases h : a.toFinset = ∅ ∧ b.toFinset = ∅
  · simp [jaccard, h]
  · simp only [jaccard, if_neg h]
    apply div_nonneg
    · exact_mod_cast Nat.zero_le _
    · exact_mod_cast Nat.zero_le _

/-- The Jaccard similarity is at most one. -/
theorem jaccard_le_one (a b : List String) : jaccard a b ≤ 1 := by
  by_cases h : a.toFinset = ∅ ∧ b.toFinset = ∅
  · simp [jaccard, h]
  · simp only [jaccard, if_neg h]
    apply div_le_one_of_le₀
    · exact_mod_cast le_trans (Finset.card_le_card Finset.inter_subset_union)
        (le_max_right 1 _)
    · exact_mod_cast Nat.zero_le _

/-- The similarity of two signatures lies in `[0, 1]`. -/
theorem sim_bounds (s1 s2 : Sig) : 0 ≤ sim s1 s2 ∧ sim s1 s2 ≤ 1 := by
  unfold sim
  have hm : 0 ≤ (match s1.child_keys, s2.child_keys with
      | Option.some a, Option.some b => 3/10 * jaccard a b
      | _, _ => (0 : ℚ))
      ∧ (match s1.child_keys, s2.child_keys with
      | Option.some a, Option.some b => 3/10 * jaccard a b
      | _, _ => (0 : ℚ)) ≤ 3/10 := by
    rcases s1.child_keys with _ | a <;> rcases s2.child_keys with _ | b <;>
      simp only [] <;> try norm_num
    constructor
    · have := jaccard_nonneg a b
      linarith
    · have := jaccard_le_one a b
      linarith
  constructor <;> split_ifs <;> rcases hm with ⟨hm0, hm1⟩ <;> linarith

/-- `jaccard` only depends on the key sets. -/
theorem jaccard_congr {a a' b b' : List String} (h1 : a.toFinset = a'.toFinset)
    (h2 : b.toFinset = b'.toFinset) : jaccard a b = jaccard a' b' := by
  simp only [jaccard, h1, h2]

/-- Sorting the child keys does not change their Jaccard similarity. -/
theorem jaccard_insertionSort (a b : List String) :
    jaccard (a.insertionSort (· ≤ ·)) (b.insertionSort (· ≤ ·)) = jaccard a b :=
  jaccard_congr (List.toFinset_eq_of_perm _ _ (List.perm_insertionSort _ a))
    (List.toFinset_eq_of_perm _ _ (List.perm_insertionSort _ b))

/-- The `itemsType` reading of a node's signature is its item kind. -/
theorem itemsTypeGet_node_signature (n : SNode) :
    (node_signature n).itemsTypeGet = itemKind n := by
  cases h : n.items <;> simp [node_signature, Sig.itemsTypeGet, itemKind, h]

/-- C3 (counterexample): for two identical plain string scalars the
aligner's score is `0.7` — the `+0.1` item-kind bonus fires although the
nodes are not arrays — while the claimed formula gives `0.6` (kind match
`0.4` + enum presence `0.1` + items presence `0.1`). -/
theorem claim_C3_counterexample :
    sim (node_signature strNode) (node_signature strNode) ≠
      simClaimSpecC3 strNode strNode := by
  with_unfolding_all decide

/-- C3 (amended): the aligner's similarity score equals: 0.4 if the
normalized kinds are equal; plus 0.3 × Jaccard of the child-property-name
sets when both nodes are objects; plus 0.1 if the enum SIZES are equal
(not mere presence); plus 0.1 if items presence matches; plus 0.1 if the
item kinds match, including vacuously when neither node is an array; and
the total always lies in `[0, 1]`. -/
theorem claim_C3_theorem (a b : SNode) :
    sim (node_signature a) (node_signature b) = simAmendedC3 a b
    ∧ 0 ≤ sim (node_signature a) (node_signature b)
    ∧ sim (node_signature a) (node_signature b) ≤ 1 := by
  refine ⟨?_, (sim_bounds _ _).1, (sim_bounds _ _).2⟩
  unfold sim simAmendedC3
  rw [itemsTypeGet_node_signature, itemsTypeGet_node_signature]
  by_cases ha : a.bsonType = some "object" <;> by_cases hb : b.bsonType = some "object" <;>
    simp only [node_signature, norm_type, ha, hb, if_true, if_false, reduceIte] <;>
    (try simp) <;>
    (exact jaccard_congr (List.toFinset_eq_of_perm _ _ (List.perm_insertionSort _ _))
      (List.toFinset_eq_of_perm _ _ (List.perm_insertionSort _ _)))

/-- C5 (amended): `show_diff.py`'s comparator emits `AddRange` exactly
when no old bound existed and some new bound exists, emits `ModifyRange`
exactly when some old bound existed and the bounds differ (including
when both bounds disappear), and never emits `DropRange`;
`batch_schema_diff.py`'s comparator emits `DropRange` exactly when its
literal `(amin, bmax) ≠ (bmin, bmax)` guard passes, no new bound remains
and at least one (not necessarily both) old bound existed. -/
theorem claim_C5_theorem (a b : SNode) (p : String) :
    (Operation.AddRange p b.minimum b.maximum ∈ constraint_ops a b p ↔
      (a.minimum = Option.none ∧ a.maximum = Option.none)
      ∧ (b.minimum ≠ Option.none ∨ b.maximum ≠ Option.none))
    ∧ (Operation.ModifyRange p a.minimum a.maximum b.minimum b.maximum ∈ constraint_ops a b p ↔
      ¬(a.minimum = Option.none ∧ a.maximum = Option.none)
      ∧ (b.minimum ≠ a.minimum ∨ b.maximum ≠ a.maximum))
    ∧ (∀ q, Operation.DropRange q ∉ constraint_ops a b p)
    ∧ (∀ q, Operation.DropRange q ∈ BatchDiff.range_enum_ops a b p ↔
      q = p ∧ (a.minimum, b.maximum) ≠ (b.minimum, b.maximum)
      ∧ (b.minimum = Option.none ∧ b.maximum = Option.none)
      ∧ (a.minimum ≠ Option.none ∨ a.maximum ≠ Option.none)) := by
  refine ⟨?_, ?_, ?_, ?_⟩
  · simp only [constraint_ops]
    split_ifs <;> simp_all
  · simp only [constraint_ops]
    split_ifs <;> simp_all
  · intro q
    simp only [constraint_ops]
    split_ifs <;> simp_all
  · intro q
    simp only [BatchDiff.range_enum_ops]
    split_ifs <;> simp_all

/-- C6 (amended): neither constraint comparator ever emits a pattern
operation: pattern constraints are not compared at all, so adding,
changing or dropping a `pattern` yields no operation from the
range/enum/required comparison. -/
theorem claim_C6_theorem (a b : SNode) (p : String) :
    ((constraint_ops a b p).all (fun op => !op.isPatternOp)) = true
    ∧ ((BatchDiff.range_enum_ops a b p).all (fun op => !op.isPatternOp)) = true := by
  constructor
  · simp only [constraint_ops]
    split_ifs <;> simp [Operation.isPatternOp]
  · simp only [BatchDiff.range_enum_ops]
    split_ifs <;> simp [Operation.isPatternOp]

/-- C10: `jaccard` returns `1` on two empty key sets; consequently two
empty object nodes (no children, no enum, no items) score exactly `1`,
so any such removed/added pair always enters the aligner's retained
candidate list with score `1`, regardless of the paths involved. -/
theorem claim_C10_theorem (a b : SNode)
    (ha : a.bsonType = some "object") (hb : b.bsonType = some "object")
    (hpa : a.props = .nil) (hpb : b.props = .nil)
    (hea : a.enumVals = []) (heb : b.enumVals = [])
    (hia : a.items = .none) (hib : b.items = .none)
    (removed added : List String) (oldIdx newIdx : List (String × SNode)) (po pn : String)
    (hr : po ∈ removed) (hn : pn ∈ added)
    (hlo : oldIdx.lookup po = some a) (hln : newIdx.lookup pn = some b) :
    jaccard [] [] = 1
    ∧ sim (node_signature a) (node_signature b) = 1
    ∧ (po, pn, (1 : ℚ)) ∈ candidatePairs removed added oldIdx newIdx := by
  have hsim : sim (node_signature a) (node_signature b) = 1 := by
    simp only [sim, node_signature, norm_type, Sig.itemsTypeGet, ha, hb, hpa, hpb, hea, heb,
      hia, hib]
    norm_num [jaccard, PList.keys, ONode.isSome, List.insertionSort]
  refine ⟨by norm_num [jaccard], hsim, ?_⟩
  have hs : simAt oldIdx newIdx po pn = 1 := by
    unfold simAt
    rw [hlo, hln]
    simpa using hsim
  unfold candidatePairs candRow
  refine List.mem_flatMap.mpr ⟨po, hr, List.mem_filterMap.mpr ⟨pn, hn, ?_⟩⟩
  simp only [hs]
  norm_num

/-- C10 (witness): the general statement instantiated at two concrete
empty-object nodes sitting at unrelated paths. -/
theorem claim_C10_witness :
    emptyObjNode.bsonType = some "object"
    ∧ (("x.p" : String) ∈ ["x.p"])
    ∧ (("x.p", "y.q[]", (1 : ℚ)) ∈
        candidatePairs ["x.p"] ["y.q[]"] [("x.p", emptyObjNode)] [("y.q[]", emptyObjNode)]) := by
  refine ⟨rfl, List.mem_singleton.mpr rfl, ?_⟩
  exact (claim_C10_theorem emptyObjNode emptyObjNode rfl rfl rfl rfl rfl rfl rfl rfl
    ["x.p"] ["y.q[]"] [("x.p", emptyObjNode)] [("y.q[]", emptyObjNode)] "x.p" "y.q[]"
    (List.mem_singleton.mpr rfl) (List.mem_singleton.mpr rfl) (by rfl) (by rfl)).2.2

namespace MakeDS

/-- After `d[k] = v`, looking up `k` yields `v`. -/
theorem lookup_insertOrAssign_self : ∀ (l : JPList) (k : String) (v : JNode),
    (l.insertOrAssign k v).lookup k = Option.some v
  | .nil, k, v => by simp [JPList.insertOrAssign, JPList.lookup]
  | .cons k0 v0 tl, k, v => by
    by_cases h : k0 = k <;>
      simp [JPList.insertOrAssign, JPList.lookup, h, lookup_insertOrAssign_self tl k v]

/-- `d[k] = v` never removes a key. -/
theorem isSome_lookup_insertOrAssign : ∀ (l : JPList) (k r : String) (v : JNode),
    (l.lookup r).isSome = true →
    ((l.insertOrAssign k v).lookup r).isSome = true
  | .nil, k, r, v => by simp [JPList.lookup]
  | .cons k0 v0 tl, k, r, v => by
    intro h
    by_cases hk : k0 = k
    · subst hk
      by_cases hr : k0 = r <;>
        simp_all [JPList.insertOrAssign, JPList.lookup]
    · by_cases hr : k0 = r <;>
        simp_all [JPList.insertOrAssign, JPList.lookup, hk,
          isSome_lookup_insertOrAssign tl k r v]

/-- `dict.pop(k)` does not affect the binding of any other key. -/
theorem lookup_erase_ne : ∀ (l : JPList) (k r : String), r ≠ k →
    (l.erase k).lookup r = l.lookup r
  | .nil, k, r, _ => by simp [JPList.erase]
  | .cons k0 v0 tl, k, r, h => by
    by_cases hk : k0 = k
    · subst hk
      have hr : ¬ k0 = r := fun hc => h hc.symm
      simp [JPList.erase, JPList.lookup, hr]
    · by_cases hr : k0 = r <;>
        simp [JPList.erase, JPList.lookup, hk, hr, h, lookup_erase_ne tl k r h]

/-- Updating a value in place preserves key presence. -/
theorem isSome_lookup_updateAt : ∀ (l : JPList) (k r : String) (f : JNode → JNode),
    ((l.updateAt k f).lookup r).isSome = (l.lookup r).isSome
  | .nil, _, _, _ => by simp [JPList.updateAt]
  | .cons k0 v0 tl, k, r, f => by
    by_cases hk : k0 = k
    · subst hk
      by_cases hr : k0 = r <;> simp [JPList.updateAt, JPList.lookup, hr]
    · by_cases hr : k0 = r
      · have hrk : ¬ r = k := fun hc => hk (hr.trans hc)
        simp [JPList.updateAt, JPList.lookup, hk, hr, hrk]
      · simp [JPList.updateAt, JPList.lookup, hk, hr, isSome_lookup_updateAt tl k r f]

/-- Invariant of the promotion loop: every name in the evolving required
list stays a key of the evolving top-level properties, and the
multiplicity of the un-nested object's name in the required list is
unchanged (the appended names come from the nested keys, which exclude
it). -/
theorem promoteFold_inv (objChoice : String) (coin : String → Bool) :
    ∀ (fs : List String), objChoice ∉ fs →
    ∀ (top nested : JPList) (req : List String),
      (∀ r ∈ req, ((top.lookup r).isSome = true)) →
      (∀ r ∈ (promoteFold objChoice coin fs (top, nested, req)).2.2,
          (((promoteFold objChoice coin fs (top, nested, req)).1.lookup r).isSome = true))
      ∧ (promoteFold objChoice coin fs (top, nested, req)).2.2.count objChoice
          = req.count objChoice := by
  intro fs
  induction fs with
  | nil =>
    intro _ top nested req h
    exact ⟨h, rfl⟩
  | cons f tl ih =>
    intro hobj top nested req h
    have hf : f ≠ objChoice := fun hc => hobj (hc ▸ List.mem_cons_self f tl)
    have hf2 : objChoice ≠ f := Ne.symm hf
    have hobj' : objChoice ∉ tl := fun hc => hobj (List.mem_cons_of_mem f hc)
    simp only [promoteFold]
    have hinv' : ∀ r ∈ (if objChoice ∈ req ∧ coin f = true then req ++ [f] else req),
        (((top.insertOrAssign f ((nested.lookup f).getD defJNode)).lookup r).isSome = true) := by
      intro r hr
      by_cases hcoin : objChoice ∈ req ∧ coin f = true
      · rw [if_pos hcoin] at hr
        rcases List.mem_append.mp hr with hr | hr
        · exact isSome_lookup_insertOrAssign _ _ _ _ (h r hr)
        · have hrf : r = f := List.mem_singleton.mp hr
          subst hrf
          rw [lookup_insertOrAssign_self]
          rfl
      · rw [if_neg hcoin] at hr
        exact isSome_lookup_insertOrAssign _ _ _ _ (h r hr)
    have hcount' : (if objChoice ∈ req ∧ coin f = true then req ++ [f] else req).count objChoice
        = req.count objChoice := by
      split_ifs
      · simp [List.count_append, List.count_cons, hf, hf2]
      · rfl
    obtain ⟨h1, h2⟩ := ih hobj' _ _ _ hinv'
    exact ⟨h1, h2.trans hcount'⟩

/-- Projection of `withPropsRequired`. -/
theorem withPropsRequired_props : ∀ (n : JNode) (p : JPList) (r : List String),
    (n.withPropsRequired p r).props = p
  | .mk _ _ _ _ _ _ _ _, _, _ => rfl

/-- Projection of `withPropsRequired`. -/
theorem withPropsRequired_required : ∀ (n : JNode) (p : JPList) (r : List String),
    (n.withPropsRequired p r).required = r
  | .mk _ _ _ _ _ _ _ _, _, _ => rfl

/-- The final clean-up step of `unnest_field`/`promote_field`: removing
the (at most once required) un-nested object from both the properties
and the required list keeps every remaining required name resolvable. -/
theorem rootReq_finish (top : JPList) (req : List String) (objChoice : String)
    (h1 : ∀ r ∈ req, ((top.lookup r).isSome = true))
    (hcnt : req.count objChoice ≤ 1) :
    ∀ r ∈ (if objChoice ∈ req then req.erase objChoice else req),
      (((top.erase objChoice).lookup r).isSome = true) := by
  intro r hr
  by_cases hin : objChoice ∈ req
  · rw [if_pos hin] at hr
    have hrmem : r ∈ req := List.mem_of_mem_erase hr
    have hzero : (req.erase objChoice).count objChoice = 0 := by
      rw [List.count_erase_self]
      have hpos : 0 < req.count objChoice := List.count_pos_iff.mpr hin
      omega
    have hne : r ≠ objChoice := by
      intro hc
      exact List.count_eq_zero.mp hzero (hc ▸ hr)
    rw [lookup_erase_ne _ _ _ hne]
    exact h1 r hrmem
  · rw [if_neg hin] at hr
    have hne : r ≠ objChoice := fun hc => hin (hc ▸ hr)
    rw [lookup_erase_ne _ _ _ hne]
    exact h1 r hr

/-- C2 (amended): whenever the un-nested object's name is not among the
chosen nested field names — and the input required list is duplicate-free
with resolving names — `unnest_field` and `promote_field` keep the
TOP-LEVEL required list consistent with the top-level properties.  (The
counterexample shows the invariant still breaks inside the un-nested
object itself, and that without the no-shadowed-name condition even the
top level can break, so the pool-wide claim at every depth fails.) -/
theorem claim_C2_theorem (schema : JNode) (objChoice fieldChoice : String)
    (fieldsChoice : List String) (coin : String → Bool) (coin2 : Bool)
    (hroot : rootReqOK schema = true)
    (hnd : schema.required.Nodup)
    (hobj : objChoice ∉ fieldsChoice) :
    rootReqOK (unnest_field schema objChoice fieldsChoice coin) = true
    ∧ rootReqOK (promote_field schema objChoice fieldChoice coin2) = true := by
  have hroot' : ∀ r ∈ schema.required, ((schema.props.lookup r).isSome = true) :=
    List.all_eq_true.mp hroot
  have hcnt1 : schema.required.count objChoice ≤ 1 :=
    List.nodup_iff_count_le_one.mp hnd objChoice
  constructor
  · unfold unnest_field
    by_cases hmem : objChoice ∈ nested_objects schema.props
    · rw [if_pos hmem]
      obtain ⟨h1, h2⟩ := promoteFold_inv objChoice coin fieldsChoice hobj schema.props
        ((schema.props.lookup objChoice).getD defJNode).props schema.required hroot'
      dsimp only
      by_cases hnil : (promoteFold objChoice coin fieldsChoice
          (schema.props, ((schema.props.lookup objChoice).getD defJNode).props,
            schema.required)).2.1.isNil = true
      · rw [if_pos hnil, rootReqOK, withPropsRequired_props, withPropsRequired_required]
        exact List.all_eq_true.mpr (rootReq_finish _ _ _ h1 (h2.trans_le hcnt1))
      · rw [if_neg hnil, if_neg hobj, rootReqOK, withPropsRequired_props,
          withPropsRequired_required]
        apply List.all_eq_true.mpr
        intro r hr
        rw [isSome_lookup_updateAt]
        exact h1 r hr
    · rw [if_neg hmem]
      exact hroot
  · unfold promote_field
    by_cases hmem : objChoice ∈ nested_objects schema.props
    · rw [if_pos hmem]
      dsimp only
      have hne : objChoice ++ "_" ++ fieldChoice ≠ objChoice := by
        intro hcontra
        have hlen := congrArg String.length hcontra
        rw [String.length_append, String.length_append] at hlen
        have h1c : ("_" : String).length = 1 := rfl
        omega
      have hinv : ∀ r ∈ (if objChoice ∈ schema.required ∧ coin2 = true
            then schema.required ++ [objChoice ++ "_" ++ fieldChoice]
            else schema.required),
          (((schema.props.insertOrAssign (objChoice ++ "_" ++ fieldChoice)
              ((((schema.props.lookup objChoice).getD defJNode).props.lookup
                fieldChoice).getD defJNode)).lookup r).isSome = true) := by
        intro r hr
        by_cases hcoin : objChoice ∈ schema.required ∧ coin2 = true
        · rw [if_pos hcoin] at hr
          rcases List.mem_append.mp hr with hr | hr
          · exact isSome_lookup_insertOrAssign _ _ _ _ (hroot' r hr)
          · have hrf := List.mem_singleton.mp hr
            subst hrf
            rw [lookup_insertOrAssign_self]
            rfl
        · rw [if_neg hcoin] at hr
          exact isSome_lookup_insertOrAssign _ _ _ _ (hroot' r hr)
      have hcnt' : (if objChoice ∈ schema.required ∧ coin2 = true
            then schema.required ++ [objChoice ++ "_" ++ fieldChoice]
            else schema.required).count objChoice ≤ 1 := by
        split_ifs
        · rw [List.count_append]
          have : ([objChoice ++ "_" ++ fieldChoice].count objChoice) = 0 := by
            simp [List.count_cons, hne]
          omega
        · exact hcnt1
      by_cases hnil : (((schema.props.lookup objChoice).getD defJNode).props.erase
          fieldChoice).isNil = true
      · rw [if_pos hnil, rootReqOK, withPropsRequired_props, withPropsRequired_required]
        exact List.all_eq_true.mpr (rootReq_finish _ _ _ hinv hcnt')
      · rw [if_neg hnil, rootReqOK, withPropsRequired_props, withPropsRequired_required]
        apply List.all_eq_true.mpr
        intro r hr
        rw [isSome_lookup_updateAt]
        exact hinv r hr
    · rw [if_neg hmem]
      exact hroot

/-- C2 (witness): the amended preservation theorem instantiated at the
concrete counterexample schema. -/
theorem claim_C2_witness :
    rootReqOK c2schema = true ∧ c2schema.required.Nodup ∧ ("obj" : String) ∉ (["a"] : List String)
    ∧ rootReqOK (unnest_field c2schema "obj" ["a"] (fun _ => false)) = true
    ∧ rootReqOK (promote_field c2schema "obj" "a" false) = true := by
  refine ⟨by with_unfolding_all decide, by with_unfolding_all decide,
    by with_unfolding_all decide, ?_, ?_⟩
  · exact (claim_C2_theorem c2schema "obj" "a" ["a"] (fun _ => false) false
      (by with_unfolding_all decide) (by with_unfolding_all decide)
      (by with_unfolding_all decide)).1
  · exact (claim_C2_theorem c2schema "obj" "a" ["a"] (fun _ => false) false
      (by with_unfolding_all decide) (by with_unfolding_all decide)
      (by with_unfolding_all decide)).2

end MakeDS

/-- Membership in one row of the candidate collection. -/
theorem mem_candRow {added : List String} {oldIdx newIdx : List (String × SNode)}
    {po : String} {x : String × String × ℚ} :
    x ∈ candRow added oldIdx newIdx po ↔
      x.1 = po ∧ x.2.1 ∈ added ∧ x.2.2 = simAt oldIdx newIdx po x.2.1
        ∧ 3/5 ≤ x.2.2 := by
  obtain ⟨xo, xn, xs⟩ := x
  unfold candRow
  rw [List.mem_filterMap]
  simp only [Option.ite_none_right_eq_some, Option.some.injEq, Prod.mk.injEq]
  constructor
  · rintro ⟨pn, hpn, hc, h1, h2, h3⟩
    subst h2
    simp_all
  · rintro ⟨h1, h2, h3, h4⟩
    subst h1
    exact ⟨xn, h2, h3 ▸ h4, rfl, rfl, h3.symm⟩

/-- C4 part 1: exactly the pairs scoring at least `0.6` are retained. -/
theorem mem_candidatePairs {removed added : List String}
    {oldIdx newIdx : List (String × SNode)} {po pn : String} {s : ℚ} :
    (po, pn, s) ∈ candidatePairs removed added oldIdx newIdx ↔
      po ∈ removed ∧ pn ∈ added ∧ s = simAt oldIdx newIdx po pn ∧ 3/5 ≤ s := by
  unfold candidatePairs
  rw [List.mem_flatMap]
  constructor
  · rintro ⟨po', hpo', hmem⟩
    obtain ⟨h1, h2, h3, h4⟩ := mem_candRow.mp hmem
    simp only at h1 h2 h3 h4
    subst h1
    exact ⟨hpo', h2, h3, h4⟩
  · rintro ⟨h1, h2, h3, h4⟩
    exact ⟨po, h1, mem_candRow.mpr ⟨rfl, h2, h3, h4⟩⟩

/-- `pairLexLe` follows from `pairLexLt`. -/
theorem pairLexLe_of_lt {a b : String × String} (h : pairLexLt a b) : pairLexLe a b := by
  rcases h with h | ⟨h1, h2⟩
  · exact Or.inl h
  · exact Or.inr ⟨h1, le_of_lt h2⟩

/-- `pairLexLt` is irreflexive. -/
theorem pairLexLt_irrefl (a : String × String) : ¬ pairLexLt a a := by
  rintro (h | ⟨_, h⟩) <;> exact lt_irrefl _ h

/-- `pairLexLe` is transitive. -/
theorem pairLexLe_trans {a b c : String × String}
    (h1 : pairLexLe a b) (h2 : pairLexLe b c) : pairLexLe a c := by
  rcases h1 with h1 | ⟨h1e, h1l⟩ <;> rcases h2 with h2 | ⟨h2e, h2l⟩
  · exact Or.inl (h1.trans h2)
  · exact Or.inl (h2e ▸ h1)
  · exact Or.inl (h1e ▸ h2)
  · exact Or.inr ⟨h1e.trans h2e, h1l.trans h2l⟩

instance : IsTrans (String × String × ℚ) pairOrder := by
  constructor
  intro x y z hxy hyz
  rcases hxy with h | ⟨he, hl⟩ <;> rcases hyz with h' | ⟨he', hl'⟩
  · exact Or.inl (h'.trans h)
  · exact Or.inl (he' ▸ h)
  · exact Or.inl (lt_of_lt_of_eq h' he.symm)
  · exact Or.inr ⟨he.trans he', pairLexLe_trans hl hl'⟩

instance : IsTotal (String × String × ℚ) pairOrder := by
  constructor
  intro x y
  rcases lt_trichotomy x.2.2 y.2.2 with h | h | h
  · exact Or.inr (Or.inl h)
  · rcases lt_trichotomy x.1 y.1 with h1 | h1 | h1
    · exact Or.inl (Or.inr ⟨h, Or.inl h1⟩)
    · rcases le_total x.2.1 y.2.1 with h2 | h2
      · exact Or.inl (Or.inr ⟨h, Or.inr ⟨h1, h2⟩⟩)
      · exact Or.inr (Or.inr ⟨h.symm, Or.inr ⟨h1.symm, h2⟩⟩)
    · exact Or.inr (Or.inr ⟨h.symm, Or.inl h1⟩)
  · exact Or.inl (Or.inl h)

/-- The candidate list is strictly lexicographically ordered on its
`(removed, added)` projections whenever the removed and added path lists
are strictly sorted (as `diff` produces them). -/
theorem candidatePairs_pairwise_lex (removed added : List String)
    (oldIdx newIdx : List (String × SNode))
    (hr : removed.Pairwise (· < ·)) (ha : added.Pairwise (· < ·)) :
    (candidatePairs removed added oldIdx newIdx).Pairwise
      (fun x y => pairLexLt (x.1, x.2.1) (y.1, y.2.1)) := by
  unfold candidatePairs
  induction removed with
  | nil => simp
  | cons po rest ih =>
    rw [List.flatMap_cons]
    apply List.pairwise_append.mpr
    refine ⟨?_, ih hr.of_cons, ?_⟩
    · unfold candRow
      apply List.Pairwise.filterMap _ ?_ ha
      intro a a' haa' b hb b' hb'
      rw [Option.mem_def] at hb hb'
      simp only [Option.ite_none_right_eq_some, Option.some.injEq] at hb hb'
      rw [← hb.2, ← hb'.2]
      exact Or.inr ⟨rfl, haa'⟩
    · intro x hx y hy
      obtain ⟨hx1, _, _, _⟩ := mem_candRow.mp hx
      rcases List.mem_flatMap.mp hy with ⟨po', hpo', hy'⟩
      obtain ⟨hy1, _, _, _⟩ := mem_candRow.mp hy'
      have : po < po' := (List.pairwise_cons.mp hr).1 po' hpo'
      exact Or.inl (by rw [hx1, hy1]; exact this)

/-- Two insertion relations that agree on the element being inserted and
all list members produce the same ordered insertion. -/
theorem orderedInsert_congr {α : Type} (r1 r2 : α → α → Prop)
    [DecidableRel r1] [DecidableRel r2] (x : α) :
    ∀ (l : List α), (∀ y ∈ l, (r1 x y ↔ r2 x y)) →
      l.orderedInsert r1 x = l.orderedInsert r2 x
  | [], _ => rfl
  | y :: tl, h => by
    by_cases hc : r1 x y
    · rw [List.orderedInsert, if_pos hc, List.orderedInsert,
        if_pos ((h y (List.mem_cons_self y tl)).mp hc)]
    · rw [List.orderedInsert, if_neg hc, List.orderedInsert,
        if_neg (fun hc2 => hc ((h y (List.mem_cons_self y tl)).mpr hc2)),
        orderedInsert_congr r1 r2 x tl (fun z hz => h z (List.mem_cons_of_mem y hz))]

/-- On a list whose `(removed, added)` projections are strictly
lexicographically increasing, the stable score-only sort of the source
coincides with sorting by score descending with lexicographic
tie-break. -/
theorem sortPairs_eq (l : List (String × String × ℚ))
    (hl : l.Pairwise (fun x y => pairLexLt (x.1, x.2.1) (y.1, y.2.1))) :
    sortPairs l = l.insertionSort pairOrder := by
  induction l with
  | nil => rfl
  | cons x tl ih =>
    unfold sortPairs at *
    rw [List.insertionSort, List.insertionSort, ih hl.of_cons]
    apply orderedInsert_congr
    intro y hy
    have hy' : y ∈ tl := (List.mem_insertionSort pairOrder).mp hy
    have hlex : pairLexLt (x.1, x.2.1) (y.1, y.2.1) := (List.pairwise_cons.mp hl).1 y hy'
    unfold scoreGe pairOrder
    constructor
    · intro hle
      rcases lt_or_eq_of_le hle with h | h
      · exact Or.inl h
      · exact Or.inr ⟨h.symm, pairLexLe_of_lt hlex⟩
    · rintro (h | ⟨he, _⟩)
      · exact le_of_lt h
      · exact le_of_eq he.symm

/-- C4 part 2: under sorted inputs, the sorted pair list is ordered by
descending score with lexicographic tie-break. -/
theorem sortPairs_sorted (removed added : List String)
    (oldIdx newIdx : List (String × SNode))
    (hr : removed.Pairwise (· < ·)) (ha : added.Pairwise (· < ·)) :
    (sortPairs (candidatePairs removed added oldIdx newIdx)).Pairwise pairOrder := by
  rw [sortPairs_eq _ (candidatePairs_pairwise_lex removed added oldIdx newIdx hr ha)]
  exact List.sorted_insertionSort pairOrder _

/-- Splitting the greedy scan: the second half runs with the used sets
extended by exactly the pairs accepted in the first half. -/
theorem greedy_append : ∀ (l1 l2 : List (String × String × ℚ)) (uo un : List String),
    greedy (l1 ++ l2) uo un =
      greedy l1 uo un ++ greedy l2 (uo ++ (greedy l1 uo un).map Prod.fst)
        (un ++ (greedy l1 uo un).map Prod.snd)
  | [], l2, uo, un => by simp [greedy]
  | (po, pn, s) :: tl, l2, uo, un => by
    by_cases hc : po ∈ uo ∨ pn ∈ un
    · rw [List.cons_append]
      rw [greedy, if_pos hc, greedy, if_pos hc]
      exact greedy_append tl l2 uo un
    · rw [List.cons_append]
      rw [greedy, if_neg hc, greedy, if_neg hc]
      rw [greedy_append tl l2 (uo ++ [po]) (un ++ [pn])]
      simp [List.append_assoc]

/-- Every accepted pair comes from a scanned triple. -/
theorem greedy_sub : ∀ (l : List (String × String × ℚ)) (uo un : List String)
    (y : String × String), y ∈ greedy l uo un → ∃ s, (y.1, y.2, s) ∈ l
  | [], _, _, _ => by simp [greedy]
  | (po, pn, s) :: tl, uo, un, y => by
    by_cases hc : po ∈ uo ∨ pn ∈ un
    · rw [greedy, if_pos hc]
      intro hy
      obtain ⟨s', hs'⟩ := greedy_sub tl uo un y hy
      exact ⟨s', List.mem_cons_of_mem _ hs'⟩
    · rw [greedy, if_neg hc]
      intro hy
      rcases List.mem_cons.mp hy with hy | hy
      · subst hy
        exact ⟨s, List.mem_cons_self _ _⟩
      · obtain ⟨s', hs'⟩ := greedy_sub tl (uo ++ [po]) (un ++ [pn]) y hy
        exact ⟨s', List.mem_cons_of_mem _ hs'⟩

/-- No accepted pair reuses an already-consumed removed or added path. -/
theorem greedy_used : ∀ (l : List (String × String × ℚ)) (uo un : List String)
    (y : String × String), y ∈ greedy l uo un → y.1 ∉ uo ∧ y.2 ∉ un
  | [], _, _, _ => by simp [greedy]
  | (po, pn, s) :: tl, uo, un, y => by
    by_cases hc : po ∈ uo ∨ pn ∈ un
    · rw [greedy, if_pos hc]
      exact greedy_used tl uo un y
    · rw [greedy, if_neg hc]
      intro hy
      rcases List.mem_cons.mp hy with hy | hy
      · subst hy
        exact ⟨fun h => hc (Or.inl h), fun h => hc (Or.inr h)⟩
      · obtain ⟨h1, h2⟩ := greedy_used tl (uo ++ [po]) (un ++ [pn]) y hy
        exact ⟨fun h => h1 (List.mem_append_left _ h), fun h => h2 (List.mem_append_left _ h)⟩

/-- The removed paths of the accepted pairs are pairwise distinct. -/
theorem greedy_fst_nodup : ∀ (l : List (String × String × ℚ)) (uo un : List String),
    ((greedy l uo un).map Prod.fst).Nodup
  | [], _, _ => by simp [greedy]
  | (po, pn, s) :: tl, uo, un => by
    by_cases hc : po ∈ uo ∨ pn ∈ un
    · rw [greedy, if_pos hc]
      exact greedy_fst_nodup tl uo un
    · rw [greedy, if_neg hc]
      rw [List.map_cons, List.nodup_cons]
      refine ⟨?_, greedy_fst_nodup tl (uo ++ [po]) (un ++ [pn])⟩
      intro hmem
      rcases List.mem_map.mp hmem with ⟨y, hy, hy1⟩
      have := (greedy_used tl (uo ++ [po]) (un ++ [pn]) y hy).1
      exact this (List.mem_append_right _ (hy1 ▸ List.mem_singleton.mpr rfl))

/-- The accepted pair list itself has no duplicates. -/
theorem greedy_nodup (l : List (String × String × ℚ)) (uo un : List String) :
    (greedy l uo un).Nodup :=
  List.Nodup.of_map Prod.fst (greedy_fst_nodup l uo un)

/-- Under sorted inputs, the `(removed, added)` projections of the sorted
candidate list are pairwise distinct. -/
theorem sortPairs_proj_nodup (removed added : List String)
    (oldIdx newIdx : List (String × SNode))
    (hr : removed.Pairwise (· < ·)) (ha : added.Pairwise (· < ·)) :
    ((sortPairs (candidatePairs removed added oldIdx newIdx)).map
      (fun z => (z.1, z.2.1))).Nodup := by
  have hcand : ((candidatePairs removed added oldIdx newIdx).map
      (fun z => (z.1, z.2.1))).Nodup :=
    (candidatePairs_pairwise_lex removed added oldIdx newIdx hr ha).map _
      (fun a b h => fun he => pairLexLt_irrefl _ (he ▸ h))
  have hperm := (List.perm_insertionSort scoreGe
    (candidatePairs removed added oldIdx newIdx)).map (fun z => (z.1, z.2.1))
  exact hperm.nodup_iff.mpr hcand

/-- C4 part 3 (greedy characterization): a retained pair, processed at
its position in the sorted list, is accepted exactly when no
earlier-processed accepted pair already consumed its removed or its
added path. -/
theorem greedy_accept_iff (S : List (String × String × ℚ))
    (hnd : (S.map (fun z => (z.1, z.2.1))).Nodup) :
    ∀ (l1 : List (String × String × ℚ)) (x : String × String × ℚ)
      (l2 : List (String × String × ℚ)), S = l1 ++ x :: l2 →
      ((x.1, x.2.1) ∈ greedy S [] [] ↔
        ∀ y ∈ greedy l1 [] [], y.1 ≠ x.1 ∧ y.2 ≠ x.2.1) := by
  intro l1 x l2 hS
  obtain ⟨xo, xn, xs⟩ := x
  subst hS
  rw [List.map_append, List.map_cons, List.nodup_append] at hnd
  obtain ⟨hnd1, hnd2, hdisj⟩ := hnd
  rw [List.nodup_cons] at hnd2
  rw [greedy_append]
  simp only [List.nil_append]
  set G1 := greedy l1 [] [] with hG1
  by_cases hc : xo ∈ G1.map Prod.fst ∨ xn ∈ G1.map Prod.snd
  · simp only [greedy]
    rw [if_pos hc]
    apply iff_of_false
    · intro hmem
      rcases List.mem_append.mp hmem with hm | hm
      · obtain ⟨s', hs'⟩ := greedy_sub l1 [] [] _ hm
        have hin : (xo, xn) ∈ l1.map (fun z => (z.1, z.2.1)) :=
          List.mem_map.mpr ⟨(xo, xn, s'), hs', rfl⟩
        exact hdisj hin (List.mem_cons_self _ _)
      · obtain ⟨s', hs'⟩ := greedy_sub l2 _ _ _ hm
        have hin : (xo, xn) ∈ l2.map (fun z => (z.1, z.2.1)) :=
          List.mem_map.mpr ⟨(xo, xn, s'), hs', rfl⟩
        exact hnd2.1 hin
    · intro hall
      rcases hc with hc | hc
      · rcases List.mem_map.mp hc with ⟨y, hy, hy1⟩
        exact (hall y hy).1 hy1
      · rcases List.mem_map.mp hc with ⟨y, hy, hy1⟩
        exact (hall y hy).2 hy1
  · simp only [greedy]
    rw [if_neg hc]
    apply iff_of_true
    · exact List.mem_append_right _ (List.mem_cons_self _ _)
    · intro y hy
      constructor
      · intro he
        exact hc (Or.inl (List.mem_map.mpr ⟨y, hy, he⟩))
      · intro he
        exact hc (Or.inr (List.mem_map.mpr ⟨y, hy, he⟩))

/-- The classification loop is the greedy scan plus per-pair
classification: renames collect the accepted pairs that are not
"moved same-leaf" pairs, moves collect those that are not
"renamed same-parent" pairs, and the used sets collect the accepted
paths. -/
theorem detectLoop_eq : ∀ (l : List (String × String × ℚ)) (st : DetectResult),
    detectLoop l st =
      ⟨st.renames ++ (greedy l st.used_old st.used_new).filter
          (fun pr => decide (isRenamePair pr)),
        st.moves ++ (greedy l st.used_old st.used_new).filter
          (fun pr => decide (isMovePair pr)),
        st.used_old ++ (greedy l st.used_old st.used_new).map Prod.fst,
        st.used_new ++ (greedy l st.used_old st.used_new).map Prod.snd⟩
  | [], st => by simp [detectLoop, greedy]
  | (po, pn, s) :: tl, st => by
    by_cases hc : po ∈ st.used_old ∨ pn ∈ st.used_new
    · rw [detectLoop, if_pos hc]
      simp only [greedy]
      rw [if_pos hc]
      exact detectLoop_eq tl st
    · rw [detectLoop, if_neg hc]
      simp only [greedy]
      rw [if_neg hc]
      by_cases h1 : parentOf po = parentOf pn ∧ leafOf po ≠ leafOf pn
      · rw [if_pos h1]
        rw [detectLoop_eq tl _]
        have hren : decide (isRenamePair (po, pn)) = true := by
          simp [isRenamePair]
          exact Or.inl h1.1
        have hmov : decide (isMovePair (po, pn)) = false := by
          simp [isMovePair]
          exact h1
        simp [List.filter_cons, hren, hmov, List.append_assoc]
      · rw [if_neg h1]
        by_cases h2 : parentOf po ≠ parentOf pn ∧ leafOf po = leafOf pn
        · rw [if_pos h2]
          rw [detectLoop_eq tl _]
          have hren : decide (isRenamePair (po, pn)) = false := by
            simp [isRenamePair]
            exact h2
          have hmov : decide (isMovePair (po, pn)) = true := by
            simp [isMovePair]
            exact Or.inl h2.1
          simp [List.filter_cons, hren, hmov, List.append_assoc]
        · rw [if_neg h2]
          rw [detectLoop_eq tl _]
          have hren : decide (isRenamePair (po, pn)) = true := by
            simp only [isRenamePair, decide_eq_true_eq]
            exact fun hcontra => h2 hcontra
          have hmov : decide (isMovePair (po, pn)) = true := by
            simp only [isMovePair, decide_eq_true_eq]
            exact fun hcontra => h1 hcontra
          simp [List.filter_cons, hren, hmov, List.append_assoc]

/-- `detect_moves_and_renames` in terms of the greedy scan over the
sorted candidate list. -/
theorem detect_eq (removed added : List String) (oldIdx newIdx : List (String × SNode)) :
    detect_moves_and_renames removed added oldIdx newIdx =
      ⟨(greedy (sortPairs (candidatePairs removed added oldIdx newIdx)) [] []).filter
          (fun pr => decide (isRenamePair pr)),
        (greedy (sortPairs (candidatePairs removed added oldIdx newIdx)) [] []).filter
          (fun pr => decide (isMovePair pr)),
        (greedy (sortPairs (candidatePairs removed added oldIdx newIdx)) [] []).map Prod.fst,
        (greedy (sortPairs (candidatePairs removed added oldIdx newIdx)) [] []).map Prod.snd⟩ := by
  unfold detect_moves_and_renames
  rw [detectLoop_eq]
  rfl

/-- C4: the aligner retains exactly the pairs scoring at least `0.6`
(so a score of exactly `0.6` is accepted and any lower score is
rejected); under sorted removed/added lists the retained pairs are
processed in descending score order with ties in lexicographic
`(removed, added)` order; the Python `used_old` set is exactly the set
of accepted removed paths of the greedy scan; and a processed pair is
accepted iff no earlier-processed accepted pair consumed either of its
paths. -/
theorem claim_C4_theorem (removed added : List String)
    (oldIdx newIdx : List (String × SNode))
    (hr : removed.Pairwise (· < ·)) (ha : added.Pairwise (· < ·)) :
    (∀ po pn s, (po, pn, s) ∈ candidatePairs removed added oldIdx newIdx ↔
        po ∈ removed ∧ pn ∈ added ∧ s = simAt oldIdx newIdx po pn ∧ 3/5 ≤ s)
    ∧ (sortPairs (candidatePairs removed added oldIdx newIdx)).Pairwise pairOrder
    ∧ ((detect_moves_and_renames removed added oldIdx newIdx).used_old =
        (greedy (sortPairs (candidatePairs removed added oldIdx newIdx)) [] []).map Prod.fst)
    ∧ (∀ (l1 : List (String × String × ℚ)) (x : String × String × ℚ)
        (l2 : List (String × String × ℚ)),
        sortPairs (candidatePairs removed added oldIdx newIdx) = l1 ++ x :: l2 →
        ((x.1, x.2.1) ∈ greedy (sortPairs (candidatePairs removed added oldIdx newIdx)) [] [] ↔
          ∀ y ∈ greedy l1 [] [], y.1 ≠ x.1 ∧ y.2 ≠ x.2.1)) := by
  refine ⟨fun po pn s => mem_candidatePairs,
    sortPairs_sorted removed added oldIdx newIdx hr ha,
    by rw [detect_eq],
    greedy_accept_iff _ (sortPairs_proj_nodup removed added oldIdx newIdx hr ha)⟩

/-- C4 (witness): the characterization instantiated on the one-element
sorted lists of the rename scenario. -/
theorem claim_C4_witness :
    (["r.a"] : List String).Pairwise (· < ·)
    ∧ (["r.b"] : List String).Pairwise (· < ·)
    ∧ (sortPairs (candidatePairs ["r.a"] ["r.b"] [("r.a", strNode)]
        [("r.b", strNode)])).Pairwise pairOrder := by
  refine ⟨List.pairwise_singleton _ _, List.pairwise_singleton _ _, ?_⟩
  have key := claim_C4_theorem
    ["r.a"] ["r.b"] [("r.a", strNode)] [("r.b", strNode)]
    (List.pairwise_singleton _ _) (List.pairwise_singleton _ _)
  exact key.2.1

/-- `Operation.RenameField` as a function of the pair is injective. -/
theorem renameField_injective :
    Function.Injective (fun pr : String × String => Operation.RenameField pr.1 pr.2) := by
  intro a b h
  simp only [Operation.RenameField.injEq] at h
  exact Prod.ext h.1 h.2

/-- `Operation.MoveField` as a function of the pair is injective. -/
theorem moveField_injective :
    Function.Injective (fun pr : String × String => Operation.MoveField pr.1 pr.2) := by
  intro a b h
  simp only [Operation.MoveField.injEq] at h
  exact Prod.ext h.1 h.2


/-- Counting an op produced from a duplicate-free pair list through an
injective constructor: the op appears once when its pair survives the
filter, never otherwise. -/
theorem count_map_filter_eq (f : String × String → Operation)
    (hf : Function.Injective f) (p : String × String → Bool) :
    ∀ (L : List (String × String)) (pr : String × String), L.Nodup → pr ∈ L →
      ((L.filter p).map f).count (f pr) = if p pr = true then 1 else 0
  | [], pr, _, hmem => absurd hmem (List.not_mem_nil pr)
  | y :: tl, pr, hnd, hmem => by
    rw [List.nodup_cons] at hnd
    have hcount0 : ∀ (l' : List (String × String)), pr ∉ l' →
        ((l'.filter p).map f).count (f pr) = 0 := by
      intro l' hnm
      apply List.count_eq_zero.mpr
      intro hin
      rcases List.mem_map.mp hin with ⟨z, hz, hzf⟩
      exact hnm ((hf hzf) ▸ List.mem_of_mem_filter hz)
    rcases List.mem_cons.mp hmem with h | h
    · subst h
      by_cases hp : p pr = true
      · rw [List.filter_cons_of_pos hp, List.map_cons, List.count_cons_self,
          hcount0 tl hnd.1, if_pos hp]
      · rw [List.filter_cons_of_neg (by simpa using hp), hcount0 tl hnd.1, if_neg hp]
    · have hyne : f pr ≠ f y := fun hcontra => hnd.1 ((hf hcontra) ▸ h)
      by_cases hp : p y = true
      · rw [List.filter_cons_of_pos hp, List.map_cons, List.count_cons_of_ne hyne,
          count_map_filter_eq f hf p tl pr hnd.2 h]
      · rw [List.filter_cons_of_neg (by simpa using hp),
          count_map_filter_eq f hf p tl pr hnd.2 h]

/-- A map through the `MoveField` constructor contains no `RenameField`
(and vice versa). -/
theorem count_map_other_zero (f : String × String → Operation) (op : Operation)
    (hop : ∀ pr, f pr ≠ op) (L : List (String × String)) :
    (L.map f).count op = 0 := by
  apply List.count_eq_zero.mpr
  intro hin
  rcases List.mem_map.mp hin with ⟨z, _, hzf⟩
  exact hop z hzf

/-- C7: every accepted aligner pair yields exactly one `RenameField` when
only the leaf name changed, exactly one `MoveField` when only the parent
changed, and one of each — referencing the same two paths — when both
changed. -/
theorem claim_C7_theorem (removed added : List String)
    (oldIdx newIdx : List (String × SNode)) (po pn : String)
    (hacc : (po, pn) ∈ (detect_moves_and_renames removed added oldIdx newIdx).renames
          ∨ (po, pn) ∈ (detect_moves_and_renames removed added oldIdx newIdx).moves) :
    (parentOf po = parentOf pn ∧ leafOf po ≠ leafOf pn →
      (renameMoveOps (detect_moves_and_renames removed added oldIdx newIdx).renames
          (detect_moves_and_renames removed added oldIdx newIdx).moves).count
        (Operation.RenameField po pn) = 1
      ∧ (renameMoveOps (detect_moves_and_renames removed added oldIdx newIdx).renames
          (detect_moves_and_renames removed added oldIdx newIdx).moves).count
        (Operation.MoveField po pn) = 0)
    ∧ (parentOf po ≠ parentOf pn ∧ leafOf po = leafOf pn →
      (renameMoveOps (detect_moves_and_renames removed added oldIdx newIdx).renames
          (detect_moves_and_renames removed added oldIdx newIdx).moves).count
        (Operation.MoveField po pn) = 1
      ∧ (renameMoveOps (detect_moves_and_renames removed added oldIdx newIdx).renames
          (detect_moves_and_renames removed added oldIdx newIdx).moves).count
        (Operation.RenameField po pn) = 0)
    ∧ (parentOf po ≠ parentOf pn ∧ leafOf po ≠ leafOf pn →
      (renameMoveOps (detect_moves_and_renames removed added oldIdx newIdx).renames
          (detect_moves_and_renames removed added oldIdx newIdx).moves).count
        (Operation.MoveField po pn) = 1
      ∧ (renameMoveOps (detect_moves_and_renames removed added oldIdx newIdx).renames
          (detect_moves_and_renames removed added oldIdx newIdx).moves).count
        (Operation.RenameField po pn) = 1) := by
  rw [detect_eq] at hacc ⊢
  dsimp only at hacc ⊢
  set G := greedy (sortPairs (candidatePairs removed added oldIdx newIdx)) [] [] with hG
  have hndG : G.Nodup := greedy_nodup _ _ _
  have hmemG : (po, pn) ∈ G := by
    rcases hacc with h | h <;> exact List.mem_of_mem_filter h
  have hRen := count_map_filter_eq _ renameField_injective
    (fun pr => decide (isRenamePair pr)) G (po, pn) hndG hmemG
  have hMov := count_map_filter_eq _ moveField_injective
    (fun a => (a.1 != a.2) && decide (isMovePair a)) G (po, pn) hndG hmemG
  have hR : (renameMoveOps (G.filter (fun pr => decide (isRenamePair pr)))
        (G.filter (fun pr => decide (isMovePair pr)))).count (Operation.RenameField po pn)
      = if decide (isRenamePair (po, pn)) = true then 1 else 0 := by
    unfold renameMoveOps
    rw [List.count_append]
    have hz : (((G.filter (fun pr => decide (isMovePair pr))).filter
        (fun pr => pr.1 != pr.2)).map (fun pr => Operation.MoveField pr.1 pr.2)).count
        (Operation.RenameField po pn) = 0 :=
      count_map_other_zero _ _ (fun pr h => Operation.noConfusion h) _
    rw [hz]
    simpa using hRen
  have hM : (renameMoveOps (G.filter (fun pr => decide (isRenamePair pr)))
        (G.filter (fun pr => decide (isMovePair pr)))).count (Operation.MoveField po pn)
      = if ((po != pn) && decide (isMovePair (po, pn))) = true then 1 else 0 := by
    unfold renameMoveOps
    rw [List.count_append]
    have hz : ((G.filter (fun pr => decide (isRenamePair pr))).map
        (fun pr => Operation.RenameField pr.1 pr.2)).count (Operation.MoveField po pn) = 0 :=
      count_map_other_zero _ _ (fun pr h => Operation.noConfusion h) _
    rw [hz, List.filter_filter]
    simpa using hMov
  refine ⟨?_, ?_, ?_⟩
  · rintro ⟨hp, hl⟩
    have e1 : decide (isRenamePair (po, pn)) = true := by
      simp [isRenamePair]
      exact Or.inl hp
    have e2 : decide (isMovePair (po, pn)) = false := by
      simp [isMovePair]
      exact ⟨hp, hl⟩
    rw [hR, hM, e1, e2]
    simp
  · rintro ⟨hp, hl⟩
    have hne : po ≠ pn := fun he => hp (he ▸ rfl)
    have e1 : decide (isRenamePair (po, pn)) = false := by
      simp [isRenamePair]
      exact ⟨hp, hl⟩
    have e2 : decide (isMovePair (po, pn)) = true := by
      simp [isMovePair]
      exact Or.inl hp
    rw [hR, hM, e1, e2]
    simp [hne]
  · rintro ⟨hp, hl⟩
    have hne : po ≠ pn := fun he => hp (he ▸ rfl)
    have e1 : decide (isRenamePair (po, pn)) = true := by
      simp [isRenamePair]
      exact Or.inr hl
    have e2 : decide (isMovePair (po, pn)) = true := by
      simp [isMovePair]
      exact Or.inl hp
    rw [hR, hM, e1, e2]
    simp [hne]

/-- C7 (witness): a one-pair rename scenario — `root.name` matched to
`root.full_name` — yields exactly one `RenameField`. -/
theorem claim_C7_witness :
    ((("root.name", "root.full_name") ∈ (detect_moves_and_renames ["root.name"]
        ["root.full_name"] [("root.name", strNode)] [("root.full_name", strNode)]).renames)
      ∨ (("root.name", "root.full_name") ∈ (detect_moves_and_renames ["root.name"]
        ["root.full_name"] [("root.name", strNode)] [("root.full_name", strNode)]).moves))
    ∧ parentOf "root.name" = parentOf "root.full_name"
    ∧ leafOf "root.name" ≠ leafOf "root.full_name"
    ∧ (renameMoveOps
        (detect_moves_and_renames ["root.name"] ["root.full_name"]
          [("root.name", strNode)] [("root.full_name", strNode)]).renames
        (detect_moves_and_renames ["root.name"] ["root.full_name"]
          [("root.name", strNode)] [("root.full_name", strNode)]).moves).count
        (Operation.RenameField "root.name" "root.full_name") = 1 := by
  have hacc : (("root.name", "root.full_name") ∈ (detect_moves_and_renames ["root.name"]
        ["root.full_name"] [("root.name", strNode)] [("root.full_name", strNode)]).renames)
      ∨ (("root.name", "root.full_name") ∈ (detect_moves_and_renames ["root.name"]
        ["root.full_name"] [("root.name", strNode)] [("root.full_name", strNode)]).moves) :=
    Or.inl (by with_unfolding_all decide)
  refine ⟨hacc, by with_unfolding_all decide, by with_unfolding_all decide, ?_⟩
  have key := claim_C7_theorem
    ["root.name"] ["root.full_name"] [("root.name", strNode)]
    [("root.full_name", strNode)] "root.name" "root.full_name" hacc
  exact (key.1 ⟨by with_unfolding_all decide, by with_unfolding_all decide⟩).1
